import Mathlib

/-!
Verification of the personal expense tracker (src/main.py).

The program is a single Python class `ExpenseTracker` holding a list of
expense dictionaries and a monthly budget, with CSV persistence.  We give a
shallow embedding: Python strings become `List Char`, Python numbers become
`ℚ` (an IEEE double is a dyadic rational, hence a finite decimal, and
`float(repr(x)) == x` holds exactly; we model the number as the exact
rational it denotes), dictionaries produced by `csv.DictReader` become the
`PExpense` structure below, and exceptions become `Option`/`Except` results.
Interactive `input()` streams are modelled as explicit `List` arguments.
-/

/-- Python strings are modelled as lists of characters. -/
abbrev Str := List Char

/-- ASCII decimal digit test, as used implicitly by number parsing. -/
def isDigitC (c : Char) : Bool := '0' ≤ c && c ≤ '9'

/-- The character for a single digit value. -/
def digitChar (d : ℕ) : Char := Char.ofNat (48 + d)

/-- Numeric value of a digit character. -/
def digitVal (c : Char) : ℕ := c.toNat - 48

/-- Whitespace as recognised by Python `str.strip`. -/
def isSpaceC (c : Char) : Bool :=
  c = ' ' || c = '\t' || c = '\n' || c = '\x0d' || c = '\x0b' || c = '\x0c'

/-- A string free of carriage returns and line feeds.  Every value returned
by Python `input()` satisfies this: `input` yields one line with the
terminator removed. -/
def noCRLF (s : Str) : Bool := s.all fun c => c ≠ '\x0d' && c ≠ '\n'

/-- Split a character list at every occurrence of `c`, keeping empty pieces,
like Python `str.split(c)`. -/
def splitCh (c : Char) : Str → List Str
  | [] => [[]]
  | x :: xs =>
    match splitCh c xs with
    | [] => [[]]
    | y :: ys => if x = c then [] :: y :: ys else (x :: y) :: ys

/-- Python `str.strip()`: drop leading and trailing whitespace. -/
def pyStrip (cs : Str) : Str :=
  ((cs.dropWhile isSpaceC).reverse.dropWhile isSpaceC).reverse

/-- All characters are digits (and the string may be empty). -/
def allDigits (cs : Str) : Bool := cs.all isDigitC

/-- Value of a digit string read most-significant first. -/
def digitsVal (cs : Str) : ℕ := cs.foldl (fun a c => 10 * a + digitVal c) 0

/-- Decimal digits of a natural number, fuelled accumulator form (the fuel
makes the recursion structural so that the kernel can evaluate it). -/
def toDigitsAuxF : ℕ → ℕ → Str → Str
  | 0, _, acc => acc
  | fuel + 1, n, acc =>
    if n < 10 then digitChar n :: acc
    else toDigitsAuxF fuel (n / 10) (digitChar (n % 10) :: acc)

/-- Decimal digit string of a natural number (model of `str` on a
non-negative integer part). -/
def natToDigits (n : ℕ) : Str := toDigitsAuxF (n + 1) n []

theorem splitCh_ne_nil (c : Char) (cs : Str) : splitCh c cs ≠ [] := by
  cases cs with
  | nil => simp [splitCh]
  | cons x xs =>
    simp only [splitCh]
    cases h : splitCh c xs with
    | nil => simp
    | cons y ys =>
      by_cases hx : x = c <;> simp [hx]

/-- Splitting a list that starts with a separator-free prefix followed by the
separator peels off exactly that prefix. -/
theorem splitCh_append (c : Char) (l r : Str) (hl : ∀ x ∈ l, x ≠ c) :
    splitCh c (l ++ c :: r) = l :: splitCh c r := by
  induction l with
  | nil =>
    simp only [List.nil_append, splitCh]
    cases h : splitCh c r with
    | nil => exact absurd h (splitCh_ne_nil c r)
    | cons y ys => simp
  | cons x xs ih =>
    have hx : x ≠ c := hl x (by simp)
    have hxs : ∀ y ∈ xs, y ≠ c := fun y hy => hl y (by simp [hy])
    simp only [List.cons_append, splitCh, List.append_eq]
    rw [ih hxs]
    simp [hx]

/-- A separator-free list splits into itself alone. -/
theorem splitCh_of_not_mem (c : Char) (l : Str) (hl : ∀ x ∈ l, x ≠ c) :
    splitCh c l = [l] := by
  induction l with
  | nil => rfl
  | cons x xs ih =>
    have hx : x ≠ c := hl x (by simp)
    have hxs : ∀ y ∈ xs, y ≠ c := fun y hy => hl y (by simp [hy])
    simp only [splitCh, ih hxs]
    simp [hx]

theorem dropWhile_id_of_head (p : Char → Bool) (cs : Str)
    (h : ∀ x, cs.head? = some x → p x = false) : cs.dropWhile p = cs := by
  cases cs with
  | nil => rfl
  | cons x xs => simp [List.dropWhile, h x rfl]

/-- `pyStrip` is the identity when the first and last characters are not
whitespace. -/
theorem pyStrip_id (cs : Str)
    (h1 : ∀ x, cs.head? = some x → isSpaceC x = false)
    (h2 : ∀ x, cs.getLast? = some x → isSpaceC x = false) :
    pyStrip cs = cs := by
  unfold pyStrip
  rw [dropWhile_id_of_head _ _ h1]
  rw [dropWhile_id_of_head _ _ (by simpa using h2)]
  simp

theorem digitsVal_foldl (b : Str) (acc : ℕ) :
    b.foldl (fun a c => 10 * a + digitVal c) acc =
      acc * 10 ^ b.length + digitsVal b := by
  induction b generalizing acc with
  | nil => simp [digitsVal]
  | cons c cs ih =>
    simp only [List.foldl_cons, digitsVal, List.length_cons, Nat.mul_zero,
      Nat.zero_add]
    rw [ih, ih (digitVal c)]
    ring

theorem digitsVal_append (a b : Str) :
    digitsVal (a ++ b) = digitsVal a * 10 ^ b.length + digitsVal b := by
  unfold digitsVal
  rw [List.foldl_append]
  exact digitsVal_foldl b _

theorem digitVal_digitChar : ∀ d < 10, digitVal (digitChar d) = d := by decide

theorem isDigitC_digitChar : ∀ d < 10, isDigitC (digitChar d) = true := by decide

theorem toDigitsAuxF_append (n : ℕ) : ∀ fuel acc, n < fuel →
    toDigitsAuxF fuel n acc = natToDigits n ++ acc := by
  induction n using Nat.strong_induction_on with
  | _ n ih =>
    intro fuel acc h
    cases fuel with
    | zero => omega
    | succ fuel =>
      by_cases h10 : n < 10
      · rw [toDigitsAuxF, if_pos h10, natToDigits, toDigitsAuxF, if_pos h10]
        simp
      · have hd : n / 10 < n := Nat.div_lt_self (by omega) (by omega)
        rw [toDigitsAuxF, if_neg h10, natToDigits, toDigitsAuxF, if_neg h10]
        rw [ih (n / 10) hd _ _ (by omega), ih (n / 10) hd _ _ (by omega)]
        simp

/-- One-step unfolding of the digit printer. -/
theorem natToDigits_eq (n : ℕ) :
    natToDigits n =
      if n < 10 then [digitChar n]
      else natToDigits (n / 10) ++ [digitChar (n % 10)] := by
  by_cases h10 : n < 10
  · rw [natToDigits, toDigitsAuxF, if_pos h10, if_pos h10]
  · have hd : n / 10 < n := Nat.div_lt_self (by omega) (by omega)
    rw [natToDigits, toDigitsAuxF, if_neg h10, if_neg h10]
    exact toDigitsAuxF_append (n / 10) n _ hd

theorem natToDigits_ne_nil (n : ℕ) : natToDigits n ≠ [] := by
  rw [natToDigits_eq]
  by_cases h : n < 10
  · simp [h]
  · simp [h]

theorem allDigits_natToDigits (n : ℕ) : allDigits (natToDigits n) = true := by
  induction n using Nat.strong_induction_on with
  | _ n ih =>
    rw [natToDigits_eq]
    by_cases h : n < 10
    · rw [if_pos h]
      simp [allDigits, isDigitC_digitChar n h]
    · have hd : n / 10 < n := Nat.div_lt_self (by omega) (by omega)
      rw [if_neg h]
      have h1 := ih _ hd
      simp only [allDigits, List.all_append, List.all_cons, List.all_nil] at h1 ⊢
      simp [h1, isDigitC_digitChar (n % 10) (Nat.mod_lt n (by omega))]

theorem digitsVal_natToDigits (n : ℕ) : digitsVal (natToDigits n) = n := by
  induction n using Nat.strong_induction_on with
  | _ n ih =>
    rw [natToDigits_eq]
    by_cases h : n < 10
    · rw [if_pos h]
      simp [digitsVal, digitVal_digitChar n h]
    · have hd : n / 10 < n := Nat.div_lt_self (by omega) (by omega)
      rw [if_neg h]
      rw [digitsVal_append, ih _ hd]
      have h2 : digitsVal [digitChar (n % 10)] = n % 10 := by
        simp [digitsVal, digitVal_digitChar (n % 10) (Nat.mod_lt n (by omega))]
      rw [h2]
      simp only [List.length_cons, List.length_nil]
      omega

theorem digitsVal_replicate_zero (m : ℕ) :
    digitsVal (List.replicate m '0') = 0 := by
  induction m with
  | zero => rfl
  | succ m ih =>
    rw [List.replicate_succ]
    have : digitsVal ('0' :: List.replicate m '0') =
        digitsVal ([ '0' ] ++ List.replicate m '0') := rfl
    rw [this, digitsVal_append, ih]
    simp [digitsVal, digitVal]

theorem allDigits_replicate_zero (m : ℕ) :
    allDigits (List.replicate m '0') = true := by
  simp only [allDigits, List.all_eq_true]
  intro c hc
  rw [List.eq_of_mem_replicate hc]
  decide

/-- A digit character differs from any non-digit character. -/
theorem digit_ne (c x : Char) (h : isDigitC c = true)
    (hx : isDigitC x = false) : c ≠ x := by
  intro he
  rw [he, hx] at h
  exact Bool.false_ne_true h

/-- A digit character is not whitespace. -/
theorem digit_not_space (c : Char) (h : isDigitC c = true) :
    isSpaceC c = false := by
  by_contra hc
  have hs : isSpaceC c = true := by
    cases hh : isSpaceC c
    · exact absurd hh hc
    · rfl
  simp only [isSpaceC, Bool.or_eq_true, decide_eq_true_eq] at hs
  rcases hs with ((((h1 | h1) | h1) | h1) | h1) | h1 <;>
    (subst h1; exact absurd h (by decide))

/-!
Model of Python `float(s)` and `str(float)`.

`float(s)` accepts an optional sign followed by a decimal numeral with at
most one point (the exponent, infinity and underscore forms of the Python
grammar never arise in this program's data and are not modelled).  `str` on
a Python float prints a decimal numeral denoting the float's value exactly
enough that `float(str(x)) == x`; since every IEEE double is a dyadic
rational and hence a finite decimal, we model `str` as exact finite-decimal
printing.
-/

/-- Unsigned decimal numeral parsing: digits with at most one point. -/
def parseDecCore (cs : Str) : Option ℚ :=
  match splitCh '.' cs with
  | [ip] => if ip ≠ [] && allDigits ip then some (digitsVal ip) else none
  | [ip, fp] =>
    if (ip ++ fp) ≠ [] && allDigits ip && allDigits fp then
      some (mkRat (digitsVal (ip ++ fp)) (10 ^ fp.length))
    else none
  | _ => none

/-- Model of Python `float(s)`: optional sign, then an unsigned numeral. -/
def pyFloat (cs : Str) : Option ℚ :=
  match cs with
  | [] => none
  | c :: rest =>
    if c = '-' then (parseDecCore rest).map (fun q => -q)
    else if c = '+' then parseDecCore rest
    else parseDecCore (c :: rest)

/-- Search for an exponent `k` with `den ∣ 10 ^ k`, starting at `k`. -/
def decExpFrom (den : ℕ) (k fuel : ℕ) : ℕ :=
  match fuel with
  | 0 => k
  | fuel + 1 => if 10 ^ k % den = 0 then k else decExpFrom den (k + 1) fuel

/-- Number of fractional digits used to print a rational exactly. -/
def decExp (q : ℚ) : ℕ := decExpFrom q.den 0 q.den

/-- A rational with a finite decimal expansion.  Every value a Python float
can hold is such a rational (floats are dyadic). -/
def isDec (q : ℚ) : Bool := 10 ^ q.den % q.den = 0

/-- Digit string of the scaled numerator `|num| * 10^k / den`. -/
def ratNumDigits (q : ℚ) : Str :=
  natToDigits (q.num.natAbs * (10 ^ decExp q / q.den))

/-- The digit string padded on the left with zeros to at least `k+1` digits. -/
def ratPadded (q : ℚ) : Str :=
  List.replicate (decExp q + 1 - (ratNumDigits q).length) '0' ++ ratNumDigits q

/-- The unsigned body of the printed numeral, with the point inserted. -/
def ratBody (q : ℚ) : Str :=
  if decExp q = 0 then ratPadded q
  else
    (ratPadded q).take ((ratPadded q).length - decExp q) ++
      '.' :: (ratPadded q).drop ((ratPadded q).length - decExp q)

/-- Model of Python `str` on a float value: sign and decimal body. -/
def ratToStr (q : ℚ) : Str :=
  if q.num < 0 then '-' :: ratBody q else ratBody q

theorem decExpFrom_dvd (den : ℕ) (k fuel : ℕ)
    (h : ∃ j ≤ fuel, 10 ^ (k + j) % den = 0) :
    10 ^ decExpFrom den k fuel % den = 0 := by
  induction fuel generalizing k with
  | zero =>
    obtain ⟨j, hj, hdvd⟩ := h
    have : j = 0 := Nat.le_zero.mp hj
    subst this
    simpa using hdvd
  | succ fuel ih =>
    rw [decExpFrom]
    by_cases hk : 10 ^ k % den = 0
    · simp [hk]
    · simp only [hk, if_false]
      apply ih
      obtain ⟨j, hj, hdvd⟩ := h
      cases j with
      | zero => exact absurd (by simpa using hdvd) hk
      | succ j =>
        refine ⟨j, by omega, ?_⟩
        have : k + 1 + j = k + (j + 1) := by omega
        rw [this]
        exact hdvd

/-- For a finite decimal, the chosen exponent really works. -/
theorem decExp_dvd (q : ℚ) (h : isDec q = true) :
    q.den ∣ 10 ^ decExp q := by
  apply Nat.dvd_of_mod_eq_zero
  apply decExpFrom_dvd
  exact ⟨q.den, le_refl _, by simpa [isDec] using h⟩

theorem ratNumDigits_ne_nil (q : ℚ) : ratNumDigits q ≠ [] :=
  natToDigits_ne_nil _

theorem allDigits_ratNumDigits (q : ℚ) : allDigits (ratNumDigits q) = true :=
  allDigits_natToDigits _

theorem ratPadded_ne_nil (q : ℚ) : ratPadded q ≠ [] := by
  unfold ratPadded
  intro h
  exact ratNumDigits_ne_nil q (List.append_eq_nil.mp h).2

theorem allDigits_ratPadded (q : ℚ) : allDigits (ratPadded q) = true := by
  unfold ratPadded
  simp only [allDigits, List.all_append]
  have h1 := allDigits_replicate_zero (decExp q + 1 - (ratNumDigits q).length)
  have h2 := allDigits_ratNumDigits q
  simp only [allDigits] at h1 h2
  simp [h1, h2]

theorem ratPadded_length (q : ℚ) : decExp q + 1 ≤ (ratPadded q).length := by
  unfold ratPadded
  rw [List.length_append, List.length_replicate]
  have : (ratNumDigits q).length ≥ 1 := by
    cases h : ratNumDigits q with
    | nil => exact absurd h (ratNumDigits_ne_nil q)
    | cons a l => simp
  omega

theorem digitsVal_ratPadded (q : ℚ) :
    digitsVal (ratPadded q) = q.num.natAbs * (10 ^ decExp q / q.den) := by
  unfold ratPadded
  rw [digitsVal_append, digitsVal_replicate_zero, ratNumDigits,
    digitsVal_natToDigits]
  simp

theorem not_dot_of_allDigits (ds : Str) (h : allDigits ds = true) :
    ∀ x ∈ ds, x ≠ '.' := by
  intro x hx
  simp only [allDigits, List.all_eq_true] at h
  exact digit_ne x '.' (h x hx) (by decide)

theorem parseDecCore_digits (ds : Str) (h1 : ds ≠ [])
    (h2 : allDigits ds = true) :
    parseDecCore ds = some ((digitsVal ds : ℕ) : ℚ) := by
  unfold parseDecCore
  rw [splitCh_of_not_mem '.' ds (not_dot_of_allDigits ds h2)]
  simp [h1, h2]

theorem parseDecCore_point (ip fp : Str) (h1 : ip ≠ [])
    (h2 : allDigits ip = true) (h3 : allDigits fp = true) :
    parseDecCore (ip ++ '.' :: fp) =
      some ((digitsVal (ip ++ fp) : ℚ) / 10 ^ fp.length) := by
  unfold parseDecCore
  rw [splitCh_append '.' ip fp (not_dot_of_allDigits ip h2),
    splitCh_of_not_mem '.' fp (not_dot_of_allDigits fp h3)]
  have h4 : ip ++ fp ≠ [] := fun hc => h1 (List.append_eq_nil.mp hc).1
  simp only [h2, h3, Bool.and_true]
  rw [if_pos (by simp [h4])]
  rw [Rat.mkRat_eq_div]
  push_cast
  ring_nf

theorem ratVal (q : ℚ) (h : isDec q = true) :
    ((q.num.natAbs * (10 ^ decExp q / q.den) : ℕ) : ℚ) / 10 ^ decExp q =
      (q.num.natAbs : ℚ) / q.den := by
  have hdvd : q.den ∣ 10 ^ decExp q := decExp_dvd q h
  have hden : 0 < q.den := q.den_pos
  have key : q.num.natAbs * (10 ^ decExp q / q.den) * q.den
      = q.num.natAbs * 10 ^ decExp q := by
    rw [Nat.mul_assoc, Nat.div_mul_cancel hdvd]
  have h10 : ((10 : ℚ)) ^ decExp q ≠ 0 := by positivity
  have hdq : (q.den : ℚ) ≠ 0 := Nat.cast_ne_zero.mpr hden.ne'
  rw [div_eq_div_iff h10 hdq]
  exact_mod_cast key

theorem allDigits_take (l : Str) (m : ℕ) (h : allDigits l = true) :
    allDigits (l.take m) = true := by
  simp only [allDigits, List.all_eq_true] at h ⊢
  exact fun x hx => h x (List.mem_of_mem_take hx)

theorem allDigits_drop (l : Str) (m : ℕ) (h : allDigits l = true) :
    allDigits (l.drop m) = true := by
  simp only [allDigits, List.all_eq_true] at h ⊢
  exact fun x hx => h x ((List.drop_sublist m l).mem hx)

theorem parse_ratBody (q : ℚ) (h : isDec q = true) :
    parseDecCore (ratBody q) = some ((q.num.natAbs : ℚ) / q.den) := by
  by_cases hk : decExp q = 0
  · rw [ratBody, if_pos hk]
    rw [parseDecCore_digits _ (ratPadded_ne_nil q) (allDigits_ratPadded q)]
    rw [digitsVal_ratPadded]
    have h2 := ratVal q h
    rw [hk] at h2 ⊢
    simp only [pow_zero, div_one] at h2 ⊢
    rw [h2]
  · rw [ratBody, if_neg hk]
    have hL := ratPadded_length q
    have hip : (ratPadded q).take ((ratPadded q).length - decExp q) ≠ [] := by
      intro hc
      rcases List.take_eq_nil_iff.mp hc with hc1 | hc1
      · omega
      · exact ratPadded_ne_nil q hc1
    rw [parseDecCore_point _ _ hip
      (allDigits_take _ _ (allDigits_ratPadded q))
      (allDigits_drop _ _ (allDigits_ratPadded q))]
    rw [List.take_append_drop, List.length_drop]
    have hkL : (ratPadded q).length - ((ratPadded q).length - decExp q)
        = decExp q := by omega
    rw [hkL, digitsVal_ratPadded, ratVal q h]

theorem ratBody_head_digit (q : ℚ) :
    ∃ c t, ratBody q = c :: t ∧ isDigitC c = true := by
  obtain ⟨p, pt, hP⟩ := List.exists_cons_of_ne_nil (ratPadded_ne_nil q)
  have hpd : isDigitC p = true := by
    have := allDigits_ratPadded q
    rw [hP] at this
    simp only [allDigits, List.all_cons, Bool.and_eq_true] at this
    exact this.1
  by_cases hk : decExp q = 0
  · exact ⟨p, pt, by rw [ratBody, if_pos hk, hP], hpd⟩
  · have hL := ratPadded_length q
    obtain ⟨m, hm⟩ : ∃ m, (ratPadded q).length - decExp q = m + 1 := by
      refine ⟨(ratPadded q).length - decExp q - 1, ?_⟩
      omega
    refine ⟨p, pt.take m ++ '.' :: (p :: pt).drop (m + 1), ?_, hpd⟩
    rw [ratBody, if_neg hk, hm, hP, List.take_succ_cons]
    simp

/-- Printing a finite decimal and parsing it back with `float` recovers the
value exactly, the model-level counterpart of Python's
`float(str(x)) == x` guarantee. -/
theorem pyFloat_ratToStr (q : ℚ) (h : isDec q = true) :
    pyFloat (ratToStr q) = some q := by
  obtain ⟨c, t, hbody, hcd⟩ := ratBody_head_digit q
  have hcm : c ≠ '-' := digit_ne c '-' hcd (by decide)
  have hcp : c ≠ '+' := digit_ne c '+' hcd (by decide)
  by_cases hn : q.num < 0
  · rw [ratToStr, if_pos hn]
    have hpf : pyFloat ('-' :: ratBody q)
        = (parseDecCore (ratBody q)).map (fun x => -x) := by
      rw [pyFloat]
      simp
    rw [hpf, parse_ratBody q h]
    have habs : ((q.num.natAbs : ℚ)) = -(q.num : ℚ) := by
      rw [Int.cast_natAbs]
      have h3 : |q.num| = -q.num := abs_of_neg hn
      rw [h3]
      push_cast
      ring
    show some (-((q.num.natAbs : ℚ) / q.den)) = some q
    rw [habs, neg_div, neg_neg, Rat.num_div_den]
  · rw [ratToStr, if_neg hn, hbody, pyFloat, if_neg hcm, if_neg hcp, ← hbody,
      parse_ratBody q h]
    have habs : ((q.num.natAbs : ℚ)) = (q.num : ℚ) := by
      rw [Int.cast_natAbs]
      have h3 : |q.num| = q.num := abs_of_nonneg (not_lt.mp hn)
      rw [h3]
    rw [habs, Rat.num_div_den]

/-- Every character printed for a rational is a digit, a point or a minus
sign. -/
theorem ratToStr_chars (q : ℚ) :
    ∀ c ∈ ratToStr q, isDigitC c = true ∨ c = '.' ∨ c = '-' := by
  have hpad : ∀ c ∈ ratPadded q, isDigitC c = true := by
    intro c hc
    have := allDigits_ratPadded q
    simp only [allDigits, List.all_eq_true] at this
    exact this c hc
  have hbody : ∀ c ∈ ratBody q, isDigitC c = true ∨ c = '.' ∨ c = '-' := by
    intro c hc
    rw [ratBody] at hc
    by_cases hk : decExp q = 0
    · rw [if_pos hk] at hc
      exact Or.inl (hpad c hc)
    · rw [if_neg hk] at hc
      rcases List.mem_append.mp hc with h1 | h1
      · exact Or.inl (hpad c (List.mem_of_mem_take h1))
      · rcases List.mem_cons.mp h1 with h2 | h2
        · exact Or.inr (Or.inl h2)
        · exact Or.inl (hpad c ((List.drop_sublist _ _).mem h2))
  intro c hc
  rw [ratToStr] at hc
  by_cases hn : q.num < 0
  · rw [if_pos hn] at hc
    rcases List.mem_cons.mp hc with h1 | h1
    · exact Or.inr (Or.inr h1)
    · exact hbody c h1
  · rw [if_neg hn] at hc
    exact hbody c hc

theorem ratToStr_no_comma (q : ℚ) : ∀ c ∈ ratToStr q, c ≠ ',' := by
  intro c hc he
  rcases ratToStr_chars q c hc with h | h | h
  · exact (digit_ne c ',' h (by decide)) he
  · rw [he] at h; exact absurd h (by decide)
  · rw [he] at h; exact absurd h (by decide)

theorem ratToStr_not_space (q : ℚ) : ∀ c ∈ ratToStr q, isSpaceC c = false := by
  intro c hc
  rcases ratToStr_chars q c hc with h | h | h
  · exact digit_not_space c h
  · rw [h]; decide
  · rw [h]; decide

theorem ratToStr_ne_nil (q : ℚ) : ratToStr q ≠ [] := by
  rw [ratToStr]
  by_cases hn : q.num < 0
  · rw [if_pos hn]
    simp
  · rw [if_neg hn, ratBody]
    by_cases hk : decExp q = 0
    · rw [if_pos hk]
      exact ratPadded_ne_nil q
    · rw [if_neg hk]
      intro hc
      rcases List.append_eq_nil.mp hc with ⟨_, h2⟩
      exact List.cons_ne_nil _ _ h2

/-!
Model of the `csv` module as used by `save_expenses`/`load_expenses`: the
default dialect with delimiter `,`, quote character `"`, doubled quotes,
and minimal quoting.  A writer quotes a field exactly when it contains the
delimiter, the quote character or a line-break character; a reader treats a
quote as special only at the start of a field, with a doubled quote inside
a quoted field denoting a literal quote.
-/

/-- Does `csv.writer` (QUOTE_MINIMAL) need to quote this field? -/
def needsQuote (f : Str) : Bool :=
  f.any fun c => c = ',' || c = '"' || c = '\x0d' || c = '\n'

/-- Double every quote character, the body of a quoted field. -/
def escQ : Str → Str
  | [] => []
  | c :: r => if c = '"' then '"' :: '"' :: escQ r else c :: escQ r

/-- Render one field as `csv.writer` does. -/
def renderField (f : Str) : Str :=
  if needsQuote f then '"' :: (escQ f ++ ['"']) else f

/-- Join rendered fields with commas. -/
def joinComma : List Str → Str
  | [] => []
  | [f] => f
  | f :: g :: rest => f ++ ',' :: joinComma (g :: rest)

/-- Render one CSV row. -/
def renderLine (fs : List Str) : Str := joinComma (fs.map renderField)

/-- `csv.reader` consuming an unquoted field: up to a comma or line end.
Returns the field and the remaining input after a comma, if any. -/
def pfPlain : Str → Str → Str × Option Str
  | [], acc => (acc.reverse, none)
  | c :: r, acc => if c = ',' then (acc.reverse, some r) else pfPlain r (c :: acc)

/-- `csv.reader` inside a quoted field: a doubled quote is a literal quote,
a single closing quote returns to unquoted mode (trailing characters are
appended, as in the non-strict reader). -/
def pfQuoted : Str → Str → Str × Option Str
  | [], acc => (acc.reverse, none)
  | [c], acc =>
    if c = '"' then (acc.reverse, none) else ((c :: acc).reverse, none)
  | c :: c2 :: r, acc =>
    if c = '"' then
      (if c2 = '"' then pfQuoted r ('"' :: acc) else pfPlain (c2 :: r) acc)
    else pfQuoted (c2 :: r) (c :: acc)

/-- Parse one field: a leading quote starts a quoted field. -/
def parseFieldS : Str → Str × Option Str
  | [] => ([], none)
  | c :: r => if c = '"' then pfQuoted r [] else pfPlain (c :: r) []

/-- Parse the fields of a row, with fuel for termination. -/
def csvFields (fuel : ℕ) (cs : Str) : List Str :=
  match fuel with
  | 0 => []
  | fuel + 1 =>
    match parseFieldS cs with
    | (f, none) => [f]
    | (f, some r) => f :: csvFields fuel r

/-- Parse one CSV row; a blank line has no fields, as in `csv.reader`. -/
def csvParseLine (cs : Str) : List Str :=
  if cs = [] then [] else csvFields (cs.length + 1) cs

theorem pfPlain_end (f : Str) (hf : ∀ x ∈ f, x ≠ ',') :
    ∀ acc, pfPlain f acc = (acc.reverse ++ f, none) := by
  induction f with
  | nil => intro acc; simp [pfPlain]
  | cons c r ih =>
    intro acc
    have hc : c ≠ ',' := hf c (by simp)
    have hr : ∀ x ∈ r, x ≠ ',' := fun x hx => hf x (by simp [hx])
    rw [pfPlain, if_neg hc, ih hr]
    simp

theorem pfPlain_comma (f : Str) (hf : ∀ x ∈ f, x ≠ ',') (rest : Str) :
    ∀ acc, pfPlain (f ++ ',' :: rest) acc = (acc.reverse ++ f, some rest) := by
  induction f with
  | nil => intro acc; simp [pfPlain]
  | cons c r ih =>
    intro acc
    have hc : c ≠ ',' := hf c (by simp)
    have hr : ∀ x ∈ r, x ≠ ',' := fun x hx => hf x (by simp [hx])
    rw [List.cons_append, pfPlain, if_neg hc, ih hr]
    simp

theorem cons_of_append_single (l : Str) (z : Char) :
    ∃ d t, l ++ [z] = d :: t := by
  cases l with
  | nil => exact ⟨z, [], rfl⟩
  | cons a as => exact ⟨a, as ++ [z], rfl⟩

theorem pfQuoted_end (f : Str) :
    ∀ acc, pfQuoted (escQ f ++ ['"']) acc = (acc.reverse ++ f, none) := by
  induction f with
  | nil =>
    intro acc
    rw [escQ, List.nil_append, pfQuoted, if_pos rfl]
    simp
  | cons c r ih =>
    intro acc
    by_cases hc : c = '"'
    · subst hc
      rw [escQ, if_pos rfl]
      show pfQuoted ('"' :: '"' :: (escQ r ++ ['"'])) acc = _
      rw [pfQuoted, if_pos rfl, if_pos rfl, ih]
      simp
    · rw [escQ, if_neg hc]
      obtain ⟨d, t, hdt⟩ := cons_of_append_single (escQ r) '"'
      show pfQuoted (c :: (escQ r ++ ['"'])) acc = _
      rw [hdt, pfQuoted, if_neg hc, ← hdt, ih]
      simp

theorem pfQuoted_comma (f : Str) (rest : Str) :
    ∀ acc, pfQuoted (escQ f ++ '"' :: ',' :: rest) acc
      = (acc.reverse ++ f, some rest) := by
  induction f with
  | nil =>
    intro acc
    rw [escQ, List.nil_append, pfQuoted, if_pos rfl]
    rw [if_neg (by decide : ¬(',' = '"'))]
    rw [pfPlain, if_pos rfl]
    simp
  | cons c r ih =>
    intro acc
    by_cases hc : c = '"'
    · subst hc
      rw [escQ, if_pos rfl]
      show pfQuoted ('"' :: '"' :: (escQ r ++ '"' :: ',' :: rest)) acc = _
      rw [pfQuoted, if_pos rfl, if_pos rfl, ih]
      simp
    · rw [escQ, if_neg hc]
      have hdt : ∃ d t, escQ r ++ '"' :: ',' :: rest = d :: t := by
        cases h : escQ r with
        | nil => exact ⟨'"', ',' :: rest, rfl⟩
        | cons a as => exact ⟨a, as ++ '"' :: ',' :: rest, rfl⟩
      obtain ⟨d, t, hdt⟩ := hdt
      show pfQuoted (c :: (escQ r ++ '"' :: ',' :: rest)) acc = _
      rw [hdt, pfQuoted, if_neg hc, ← hdt, ih]
      simp

theorem no_special_of_not_needsQuote (f : Str) (h : needsQuote f = false) :
    (∀ x ∈ f, x ≠ ',') ∧ (∀ x ∈ f, x ≠ '"') := by
  simp only [needsQuote, List.any_eq_false] at h
  constructor <;> intro x hx he <;>
    (have hh := h x hx; subst he; simp at hh)

theorem parseFieldS_render_comma (f : Str) (tail : Str) :
    parseFieldS (renderField f ++ ',' :: tail) = (f, some tail) := by
  rw [renderField]
  by_cases hq : needsQuote f
  · rw [if_pos hq]
    show parseFieldS ('"' :: ((escQ f ++ ['"']) ++ ',' :: tail)) = _
    rw [parseFieldS, if_pos rfl]
    have : (escQ f ++ ['"']) ++ ',' :: tail = escQ f ++ '"' :: ',' :: tail := by
      simp
    rw [this, pfQuoted_comma]
    simp
  · rw [if_neg hq]
    obtain ⟨h1, h2⟩ := no_special_of_not_needsQuote f (by simpa using hq)
    cases f with
    | nil =>
      rw [List.nil_append, parseFieldS, if_neg (by decide : ¬(',' = '"'))]
      rw [pfPlain, if_pos rfl]
      simp
    | cons c r =>
      have hc : c ≠ '"' := h2 c (by simp)
      rw [List.cons_append, parseFieldS, if_neg hc]
      rw [show (c :: (r ++ ',' :: tail)) = ((c :: r) ++ ',' :: tail) from rfl]
      rw [pfPlain_comma (c :: r) h1 tail]
      simp

theorem parseFieldS_render_end (f : Str) :
    parseFieldS (renderField f) = (f, none) := by
  rw [renderField]
  by_cases hq : needsQuote f
  · rw [if_pos hq]
    rw [parseFieldS, if_pos rfl, pfQuoted_end]
    simp
  · rw [if_neg hq]
    obtain ⟨h1, h2⟩ := no_special_of_not_needsQuote f (by simpa using hq)
    cases f with
    | nil => rfl
    | cons c r =>
      have hc : c ≠ '"' := h2 c (by simp)
      rw [parseFieldS, if_neg hc, pfPlain_end (c :: r) h1]
      simp

theorem csvFields_renderLine (fs : List Str) (hfs : fs ≠ []) :
    ∀ fuel, fs.length ≤ fuel → csvFields fuel (renderLine fs) = fs := by
  induction fs with
  | nil => exact absurd rfl hfs
  | cons f rest ih =>
    intro fuel hlen
    cases fuel with
    | zero => simp at hlen
    | succ fuel =>
      cases rest with
      | nil =>
        have hr : renderLine [f] = renderField f := rfl
        rw [hr, csvFields, parseFieldS_render_end]
      | cons g rest2 =>
        have hjoin : renderLine (f :: g :: rest2)
            = renderField f ++ ',' :: renderLine (g :: rest2) := rfl
        rw [hjoin, csvFields, parseFieldS_render_comma]
        show f :: csvFields fuel (renderLine (g :: rest2)) = f :: g :: rest2
        rw [ih (by simp) fuel (by simpa using hlen)]

theorem renderLine_length (fs : List Str) :
    fs.length ≤ (renderLine fs).length + 1 := by
  induction fs with
  | nil => simp
  | cons f rest ih =>
    cases rest with
    | nil => simp
    | cons g r2 =>
      have hjoin : renderLine (f :: g :: r2)
          = renderField f ++ ',' :: renderLine (g :: r2) := rfl
      rw [hjoin]
      simp only [List.length_append, List.length_cons] at ih ⊢
      omega

/-- Round-trip of one CSV row: parsing an emitted row recovers the fields
(for rows of at least two fields, as all rows of this format are). -/
theorem csvParseLine_renderLine (fs : List Str) (h2 : 2 ≤ fs.length) :
    csvParseLine (renderLine fs) = fs := by
  match fs, h2 with
  | f :: g :: rest, _ =>
    have hne : renderLine (f :: g :: rest) ≠ [] := by
      have hjoin : renderLine (f :: g :: rest)
          = renderField f ++ ',' :: renderLine (g :: rest) := rfl
      rw [hjoin]
      intro hc
      rcases List.append_eq_nil.mp hc with ⟨_, h⟩
      exact List.cons_ne_nil _ _ h
    rw [csvParseLine, if_neg hne]
    exact csvFields_renderLine _ (by simp) _
      (Nat.le_of_lt_succ (Nat.lt_succ_of_le (renderLine_length _)))

/-!
Data model.  An expense is a Python dict created either by `add_expense`
(all four fields present, amount a float) or by `csv.DictReader` in
`load_expenses` (fields may be missing (`None` via `restval`), the amount
may still be an unconverted string, extra columns land under `restkey`).
-/

/-- The value stored under the `amount` key of an expense dictionary. -/
inductive AVal where
  | anone : AVal
  | astr (s : Str) : AVal
  | anum (q : ℚ) : AVal
  | amissing : AVal
  deriving DecidableEq

/-- One expense dictionary.  `none` in an `Option Str` field covers both a
`restval`-filled `None` and an absent key, which the program never
distinguishes for these three fields; for `amount`, where the conversion
loop does distinguish them, `AVal` keeps all cases apart. -/
structure PExpense where
  date : Option Str
  category : Option Str
  amount : AVal
  description : Option Str
  extra : List Str
  deriving DecidableEq

/-- The mutable state of an `ExpenseTracker`: the expense list and the
monthly budget (the filename only names the backing store). -/
structure TrackerState where
  expenses : List PExpense
  monthly_budget : ℚ
  deriving DecidableEq

/-- The state set up by `__init__` before `load_expenses` runs. -/
def initSt : TrackerState := { expenses := [], monthly_budget := 0 }

/-- The dictionary built by `add_expense` from validated inputs. -/
def mkExpense (d c : Str) (a : ℚ) (ds : Str) : PExpense :=
  { date := some d, category := some c, amount := .anum a,
    description := some ds, extra := [] }

/-- Core effect of `add_expense` (src/main.py lines 26-37) once the three
validators have accepted the inputs: append one expense dictionary. -/
def addExpense (st : TrackerState) (d c : Str) (a : ℚ) (ds : Str) :
    TrackerState :=
  { st with expenses := st.expenses ++ [mkExpense d c a ds] }

/-- `view_expenses` only prints; the state is untouched. -/
def view_expenses (st : TrackerState) : TrackerState := st

/-- The record sequence a caller observes (what `view_expenses` iterates). -/
def listRecords (st : TrackerState) : List PExpense := st.expenses

/-- Leap-year rule used by `datetime`. -/
def isLeapY (y : ℕ) : Bool := (y % 4 == 0 && !(y % 100 == 0)) || y % 400 == 0

/-- Days in a month, as `datetime.strptime` validates them. -/
def daysInMonth (y m : ℕ) : ℕ :=
  if m = 2 then (if isLeapY y then 29 else 28)
  else if m = 4 || m = 6 || m = 9 || m = 11 then 30 else 31

/-- Model of `datetime.strptime(s, "%Y-%m-%d")` succeeding: three groups of
digits separated by dashes (year 1-4 digits and at least 1, month and day
1-2 digits) forming a valid calendar date. -/
def pyValidDate (s : Str) : Bool :=
  match splitCh '-' s with
  | [y, m, d] =>
    allDigits y && decide (1 ≤ y.length) && decide (y.length ≤ 4) &&
    decide (1 ≤ digitsVal y) &&
    allDigits m && decide (1 ≤ m.length) && decide (m.length ≤ 2) &&
    allDigits d && decide (1 ≤ d.length) && decide (d.length ≤ 2) &&
    decide (1 ≤ digitsVal m) && decide (digitsVal m ≤ 12) &&
    decide (1 ≤ digitsVal d) &&
    decide (digitsVal d ≤ daysInMonth (digitsVal y) (digitsVal m))
  | _ => false

/-- `get_valid_date` (lines 42-49): keep prompting until a date parses.
An exhausted input stream leaves the loop unfinished (`none`). -/
def get_valid_date : List Str → Option (Str × List Str)
  | [] => none
  | s :: r => if pyValidDate s then some (s, r) else get_valid_date r

/-- `get_non_empty_input` (lines 51-56): strip and retry until non-empty. -/
def get_non_empty_input : List Str → Option (Str × List Str)
  | [] => none
  | s :: r =>
    if pyStrip s ≠ [] then some (pyStrip s, r) else get_non_empty_input r

/-- `get_positive_float` (lines 58-66): retry until a positive number. -/
def get_positive_float : List Str → Option (ℚ × List Str)
  | [] => none
  | s :: r =>
    match pyFloat s with
    | some v => if 0 < v then some (v, r) else get_positive_float r
    | none => get_positive_float r

/-- `add_expense` (lines 15-41) driven by an input stream: the four
validators run in order and the accepted tuple is appended.  An exhausted
stream leaves the state unchanged. -/
def add_expense (st : TrackerState) (inputs : List Str) : TrackerState :=
  match get_valid_date inputs with
  | none => st
  | some (d, r1) =>
    match get_non_empty_input r1 with
    | none => st
    | some (c, r2) =>
      match get_positive_float r2 with
      | none => st
      | some (a, r3) =>
        match get_non_empty_input r3 with
        | none => st
        | some (ds, _) => addExpense st d c a ds

/-- `set_budget` (lines 83-98): retry until a parseable value strictly
greater than zero arrives, then replace the budget; non-positive or
non-numeric attempts leave the state unchanged and re-prompt. -/
def set_budget (st : TrackerState) : List Str → TrackerState
  | [] => st
  | s :: r =>
    match pyFloat s with
    | none => set_budget st r
    | some b => if b ≤ 0 then set_budget st r else { st with monthly_budget := b }

/-- Lowercase a character as `str.lower` does for ASCII. -/
def lowerC (c : Char) : Char :=
  if 'A' ≤ c && c ≤ 'Z' then Char.ofNat (c.toNat + 32) else c

/-- Model of Python `str.lower` (ASCII range). -/
def pyLower (s : Str) : Str := s.map lowerC

/-- Python `sum(expense["amount"] for expense in expenses)` (line 110):
`none` models the TypeError raised when an amount is not numeric. -/
def totalSpentQ : List PExpense → Option ℚ
  | [] => some 0
  | e :: rest =>
    match e.amount, totalSpentQ rest with
    | .anum q, some t => some (q + t)
    | _, _ => none

/-- The figures `track_budget` prints in its budget-set branch. -/
structure BudgetView where
  budget : ℚ
  total : ℚ
  remaining : ℚ
  over : Bool
  displayed : ℚ
  deriving DecidableEq

/-- What a `track_budget` call reports. -/
inductive TrackResult where
  | unset : TrackResult
  | err : TrackResult
  | view (v : BudgetView) : TrackResult
  deriving DecidableEq

/-- `track_budget` (lines 100-121).  With `monthly_budget == 0` it offers
to set a budget (consuming user input and possibly mutating the state);
otherwise it computes total, remaining balance and the over-budget flag,
printing `abs(remaining_balance)` when over budget. -/
def track_budget (st : TrackerState) (inputs : List Str) :
    TrackerState × TrackResult :=
  if st.monthly_budget = 0 then
    match inputs with
    | [] => (st, .unset)
    | ans :: rest =>
      if pyLower ans = ['y'] then (set_budget st rest, .unset)
      else (st, .unset)
  else
    match totalSpentQ st.expenses with
    | none => (st, .err)
    | some t =>
      (st, .view
        { budget := st.monthly_budget, total := t,
          remaining := st.monthly_budget - t,
          over := decide (st.monthly_budget < t),
          displayed :=
            if st.monthly_budget < t then |st.monthly_budget - t|
            else st.monthly_budget - t })

/-!
Persistence (src/main.py lines 123-167).  The backing file is modelled as
`Option (List Str)`: `none` when the path does not exist, otherwise the
list of its lines (line terminators stripped, as universal-newline text
reading yields them).
-/

/-- Kinds of exception the load path can raise (all are caught by the
`except` clause and reported). -/
inductive PyErr where
  | valueError : PyErr
  | typeError : PyErr
  | keyError : PyErr
  deriving DecidableEq

/-- The literal label of the first line of the file. -/
def budgetLabel : Str := "Monthly Budget".data

/-- The header row written by `DictWriter.writeheader`. -/
def fieldnamesStd : List Str :=
  ["date".data, "category".data, "amount".data, "description".data]

/-- `csv.writer` value conversion for the string fields: `None` is written
as an empty field, a string as itself. -/
def strOfOpt : Option Str → Str
  | none => []
  | some s => s

/-- `csv.writer` value conversion for the amount: a float through `str`. -/
def strOfAmount : AVal → Str
  | .anum q => ratToStr q
  | .astr s => s
  | .anone => []
  | .amissing => []

/-- The CSV line `DictWriter.writerow` emits for one expense (`extra` data
under the `restkey` would make `writerow` raise and is not emitted; no
state reachable by this program carries any). -/
def recordLine (e : PExpense) : Str :=
  renderLine
    [strOfOpt e.date, strOfOpt e.category, strOfAmount e.amount,
      strOfOpt e.description]

/-- `save_expenses` (lines 123-140): first the budget line (an f-string,
not CSV-quoted), then the header row, then one line per expense. -/
def save_expenses (st : TrackerState) : List Str :=
  (budgetLabel ++ ',' :: ratToStr st.monthly_budget)
    :: renderLine fieldnamesStd :: st.expenses.map recordLine

/-- Index of the last occurrence of `key`, tracking `dict` insertion where
later duplicate fieldnames overwrite earlier ones. -/
def lastIdxAux (key : Str) : List Str → ℕ → Option ℕ → Option ℕ
  | [], _, best => best
  | f :: r, i, best => lastIdxAux key r (i + 1) (if f = key then some i else best)

/-- Last position of a fieldname in the header row. -/
def lastIdx (fns : List Str) (key : Str) : Option ℕ := lastIdxAux key fns 0 none

/-- Lookup in a `DictReader` row dict: outer `none` is a `KeyError`
(fieldname absent), `some none` is the `restval` `None` of a short row. -/
def dictGet (fns vals : List Str) (key : Str) : Option (Option Str) :=
  match lastIdx fns key with
  | none => none
  | some i => some vals[i]?

/-- The expense dictionary `DictReader` yields for one data row. -/
def rowToExpense (fns vals : List Str) : PExpense :=
  { date := (dictGet fns vals ("date".data)).join
    category := (dictGet fns vals ("category".data)).join
    amount :=
      match dictGet fns vals ("amount".data) with
      | none => .amissing
      | some none => .anone
      | some (some s) => .astr s
    description := (dictGet fns vals ("description".data)).join
    extra := if fns.length < vals.length then vals.drop fns.length else [] }

/-- One step of the conversion loop `expense["amount"] =
float(expense["amount"])` (lines 162-163): `float` of a missing key is a
`KeyError`, of `None` a `TypeError`, of an unparseable string a
`ValueError`. -/
def convertAmount (e : PExpense) : Except PyErr PExpense :=
  match e.amount with
  | .amissing => .error .keyError
  | .anone => .error .typeError
  | .astr s =>
    match pyFloat s with
    | some q => .ok { e with amount := .anum q }
    | none => .error .valueError
  | .anum q => .ok { e with amount := .anum q }

/-- The conversion loop mutates the list in place; when a conversion
raises, the prefix stays converted and the offending row and everything
after it stay as read. -/
def convertLoop : List PExpense → List PExpense × Option PyErr
  | [] => ([], none)
  | e :: rest =>
    match convertAmount e with
    | .ok e2 =>
      match convertLoop rest with
      | (res, err) => (e2 :: res, err)
    | .error err => (e :: rest, some err)

/-- `list(csv.DictReader(f))` on the lines after the budget line, followed
by the conversion loop: the first remaining line is the header, blank
lines yield no row. -/
def readRows : List Str → List PExpense × Option PyErr
  | [] => ([], none)
  | hline :: rows =>
    convertLoop
      ((((rows.map csvParseLine).filter (fun r => r ≠ [])).map
        (rowToExpense (csvParseLine hline))))

/-- `load_expenses` (lines 142-167) run on the freshly initialised state:
a missing file returns immediately; otherwise the budget token of the
first line is parsed (a failure aborts the whole `try` before any row is
read), then the rows are read and converted. -/
def load_expenses : Option (List Str) → TrackerState × Option PyErr
  | none => (initSt, none)
  | some lines =>
    match splitCh ',' (pyStrip (lines.head?.getD [])) with
    | _ :: tok :: _ =>
      match pyFloat tok with
      | none => (initSt, some .valueError)
      | some b =>
        match readRows (lines.drop 1) with
        | (es, err) => ({ expenses := es, monthly_budget := b }, err)
    | _ =>
      match readRows (lines.drop 1) with
      | (es, err) => ({ expenses := es, monthly_budget := 0 }, err)

/-- A fully validated record, as §3 of the spec demands: all four fields
present, date a valid calendar date, category and description non-empty,
amount a positive number. -/
def validRec (e : PExpense) : Bool :=
  match e.date, e.category, e.amount, e.description with
  | some d, some c, .anum a, some ds =>
    pyValidDate d && !c.isEmpty && decide (0 < a) && !ds.isEmpty
  | _, _, _, _ => false

/-- Ledger states built purely from the initial state by valid
`addRecord`/`setBudget` calls.  The side conditions on the strings record
what the interactive layer guarantees: dates satisfy the `%Y-%m-%d`
parser, category and description are non-empty single-line inputs, and
amounts and budgets are positive Python floats (dyadic rationals, hence
finite decimals). -/
inductive Reachable : TrackerState → Prop where
  | init : Reachable initSt
  | add (st : TrackerState) (d c : Str) (a : ℚ) (ds : Str) :
      Reachable st →
      pyValidDate d = true →
      c ≠ [] → noCRLF c = true →
      0 < a → isDec a = true →
      ds ≠ [] → noCRLF ds = true →
      Reachable (addExpense st d c a ds)
  | set (st : TrackerState) (b : ℚ) :
      Reachable st → 0 < b → isDec b = true →
      Reachable { st with monthly_budget := b }

theorem isDec_zero : isDec (0 : ℚ) = true := by decide

/-- The budget of any reachable state is a finite decimal. -/
theorem reachable_budget (st : TrackerState) (h : Reachable st) :
    isDec st.monthly_budget = true := by
  induction h with
  | init => exact isDec_zero
  | add st d c a ds _ _ _ _ _ _ _ _ ih => exact ih
  | set st b _ _ hdec _ => exact hdec

/-- Every record of a reachable state is a fully-formed validated record. -/
theorem reachable_records (st : TrackerState) (h : Reachable st) :
    ∀ e ∈ st.expenses, ∃ d c a ds, e = mkExpense d c a ds ∧
      pyValidDate d = true ∧ c ≠ [] ∧ 0 < a ∧ isDec a = true ∧ ds ≠ [] := by
  induction h with
  | init => intro e he; exact absurd he (List.not_mem_nil e)
  | add st d c a ds _ hd hc _ ha hadec hds _ ih =>
    intro e he
    rcases List.mem_append.mp he with h1 | h1
    · exact ih e h1
    · rcases List.mem_singleton.mp h1 with rfl
      exact ⟨d, c, a, ds, rfl, hd, hc, ha, hadec, hds⟩
  | set st b _ _ _ ih => exact ih

theorem parse_header : csvParseLine (renderLine fieldnamesStd) = fieldnamesStd :=
  csvParseLine_renderLine fieldnamesStd (by decide)

theorem rowToExpense_std (v0 v1 v2 v3 : Str) :
    rowToExpense fieldnamesStd [v0, v1, v2, v3] =
      { date := some v0, category := some v1, amount := .astr v2,
        description := some v3, extra := [] } := rfl

theorem parse_recordLine (d c : Str) (a : ℚ) (ds : Str) :
    csvParseLine (recordLine (mkExpense d c a ds)) = [d, c, ratToStr a, ds] :=
  csvParseLine_renderLine [d, c, ratToStr a, ds] (by simp)

theorem convertAmount_astr (d c : Str) (a : ℚ) (ds : Str) (ha : isDec a = true) :
    convertAmount
      { date := some d, category := some c, amount := .astr (ratToStr a),
        description := some ds, extra := [] } = .ok (mkExpense d c a ds) := by
  rw [convertAmount]
  simp only [pyFloat_ratToStr a ha]
  rfl

/-- Reading back the rows that `save_expenses` wrote for reachable records
converts them all and reports no error. -/
theorem readRows_save (es : List PExpense)
    (h : ∀ e ∈ es, ∃ d c a ds, e = mkExpense d c a ds ∧ isDec a = true) :
    readRows (renderLine fieldnamesStd :: es.map recordLine) = (es, none) := by
  rw [readRows, parse_header]
  induction es with
  | nil => rfl
  | cons e rest ih =>
    obtain ⟨d, c, a, ds, rfl, hadec⟩ := h e (by simp)
    have hrest : ∀ e2 ∈ rest,
        ∃ d c a ds, e2 = mkExpense d c a ds ∧ isDec a = true := by
      intro e2 he2
      exact h e2 (List.mem_cons_of_mem _ he2)
    have ihh := ih hrest
    simp only [List.map_cons, parse_recordLine]
    rw [List.filter_cons_of_pos (by simp)]
    simp only [List.map_cons]
    rw [rowToExpense_std]
    simp only [convertLoop, convertAmount_astr d c a ds hadec, ihh]

theorem budgetLine_pyStrip (q : ℚ) :
    pyStrip (budgetLabel ++ ',' :: ratToStr q) =
      budgetLabel ++ ',' :: ratToStr q := by
  apply pyStrip_id
  · intro x hx
    have : (budgetLabel ++ ',' :: ratToStr q).head? = some 'M' := rfl
    rw [this] at hx
    rcases Option.some.inj hx with rfl
    decide
  · intro x hx
    rw [List.getLast?_append_of_ne_nil _ (by simp)] at hx
    have h2 : (',' :: ratToStr q) = [','] ++ ratToStr q := rfl
    rw [h2, List.getLast?_append_of_ne_nil _ (ratToStr_ne_nil q)] at hx
    exact ratToStr_not_space q x (List.mem_of_getLast?_eq_some hx)

theorem budgetLine_split (q : ℚ) :
    splitCh ',' (budgetLabel ++ ',' :: ratToStr q) =
      [budgetLabel, ratToStr q] := by
  rw [splitCh_append ',' budgetLabel _ (by decide)]
  rw [splitCh_of_not_mem ',' _ (ratToStr_no_comma q)]

/-- Claim C1's round-trip law: saving any reachable ledger and loading the
result reproduces exactly the same records in the same order and the same
budget, with no error reported. -/
theorem load_save_of_reachable (st : TrackerState) (h : Reachable st) :
    load_expenses (some (save_expenses st)) = (st, none) := by
  have hb : isDec st.monthly_budget = true := reachable_budget st h
  have hrecs := reachable_records st h
  have hrows : readRows ((save_expenses st).drop 1) =
      (st.expenses, none) := by
    have hdrop : (save_expenses st).drop 1 =
        renderLine fieldnamesStd :: st.expenses.map recordLine := rfl
    rw [hdrop]
    apply readRows_save
    intro e he
    obtain ⟨d, c, a, ds, he2, _, _, _, hdec, _⟩ := hrecs e he
    exact ⟨d, c, a, ds, he2, hdec⟩
  have hhead : (save_expenses st).head?.getD [] =
      budgetLabel ++ ',' :: ratToStr st.monthly_budget := rfl
  rw [load_expenses, hhead, budgetLine_pyStrip, budgetLine_split]
  simp only [pyFloat_ratToStr st.monthly_budget hb, hrows]

/-- `set_budget` never touches the expense list. -/
theorem set_budget_expenses (st : TrackerState) :
    ∀ inputs, (set_budget st inputs).expenses = st.expenses := by
  intro inputs
  induction inputs with
  | nil => rfl
  | cons s r ih =>
    rw [set_budget]
    cases pyFloat s with
    | none => exact ih
    | some b =>
      by_cases hb : b ≤ 0
      · simp only [hb, if_true]
        exact ih
      · simp only [hb, if_false]

/-- Generalisation of `readRows_save`: after the rows `save_expenses`
wrote, arbitrary further lines are processed by the same reader pipeline
and the conversion loop continues into them. -/
theorem readRows_save_gen (extra : List Str) (es : List PExpense)
    (h : ∀ e ∈ es, ∃ d c a ds, e = mkExpense d c a ds ∧ isDec a = true) :
    readRows (renderLine fieldnamesStd :: (es.map recordLine ++ extra)) =
      (es ++ (convertLoop (((extra.map csvParseLine).filter
          (fun r => r ≠ [])).map (rowToExpense fieldnamesStd))).1,
        (convertLoop (((extra.map csvParseLine).filter
          (fun r => r ≠ [])).map (rowToExpense fieldnamesStd))).2) := by
  rw [readRows, parse_header]
  induction es with
  | nil => simp
  | cons e rest ih =>
    obtain ⟨d, c, a, ds, rfl, hadec⟩ := h e (by simp)
    have hrest : ∀ e2 ∈ rest,
        ∃ d c a ds, e2 = mkExpense d c a ds ∧ isDec a = true := by
      intro e2 he2
      exact h e2 (List.mem_cons_of_mem _ he2)
    have ihh := ih hrest
    simp only [List.map_cons, List.cons_append, List.map_append,
      parse_recordLine] at ihh ⊢
    rw [List.filter_cons_of_pos (by simp)]
    simp only [List.map_cons] at ihh ⊢
    rw [rowToExpense_std]
    simp only [List.map_append, List.filter_append] at ihh ⊢
    simp only [convertLoop, convertAmount_astr d c a ds hadec, ihh]

/-!
The claims.
-/

/-- C1: for every ledger built purely from valid `addRecord`/`setBudget`
calls, saving to the backing store and loading from it reproduces an
equivalent ledger: the same budget and the same records in the same
insertion order, with amounts equal (exactly, hence to 2-decimal
precision), and no error. -/
theorem C1_save_load_roundtrip (st : TrackerState) (h : Reachable st) :
    load_expenses (some (save_expenses st)) = (st, none) :=
  load_save_of_reachable st h

theorem C1_witness :
    load_expenses (some (save_expenses (addExpense initSt
        ("2024-01-15".data) ("Food".data) (mkRat 25 2) ("Lunch".data)))) =
      (addExpense initSt ("2024-01-15".data) ("Food".data) (mkRat 25 2)
        ("Lunch".data), none) :=
  C1_save_load_roundtrip _
    (Reachable.add _ _ _ _ _ Reachable.init (by decide) (by decide)
      (by decide) (by decide) (by decide) (by decide) (by decide))

/-- A stored file whose single data row would fail every validation rule:
the date is not a date, the category is empty, the amount is negative and
the description is empty. -/
def fileC2 : List Str :=
  ["Monthly Budget,0".data, "date,category,amount,description".data,
    "notadate,,-5,".data]

/-- C2 is falsified by the code: `load_expenses` performs no
re-validation, so a stored row with an invalid date, an empty category, a
negative amount and an empty description is admitted to the ledger as a
record. -/
theorem C2_counterexample :
    (load_expenses (some fileC2)).1.expenses =
      [{ date := some ("notadate".data), category := some [],
          amount := .anum (-5), description := some [], extra := [] }] ∧
    ((load_expenses (some fileC2)).1.expenses.all validRec) = false := by
  constructor
  · with_unfolding_all decide
  · with_unfolding_all decide

/-- C2 (amended): every record admitted by `add_expense` has been
validated (parseable date, non-empty category and description, strictly
positive amount), so ledgers built from `addRecord`/`setBudget` calls
contain only valid records; `load_expenses` performs no such
re-validation. -/
theorem C2_admitted_records_validated (st : TrackerState) (h : Reachable st) :
    ∀ e ∈ st.expenses, validRec e = true := by
  intro e he
  obtain ⟨d, c, a, ds, rfl, hd, hc, ha, _, hds⟩ := reachable_records st h e he
  rw [validRec]
  simp only [mkExpense]
  rw [hd]
  simp [List.isEmpty_iff, hc, hds, ha]

theorem C2_witness :
    validRec (mkExpense ("2024-01-15".data) ("Food".data) (mkRat 25 2)
      ("Lunch".data)) = true :=
  C2_admitted_records_validated
    (addExpense initSt ("2024-01-15".data) ("Food".data) (mkRat 25 2)
      ("Lunch".data))
    (Reachable.add _ _ _ _ _ Reachable.init (by decide) (by decide)
      (by decide) (by decide) (by decide) (by decide) (by decide))
    _ (by simp [addExpense, initSt])

/-- A stored file with one fully valid data row followed by a malformed
row with only two fields. -/
def fileC3 : List Str :=
  ["Monthly Budget,0".data, "date,category,amount,description".data,
    "2024-01-15,Food,12.5,Lunch".data, "a,b".data]

/-- C3 is falsified by the code: loading a file whose last row is
malformed does report an error, but the resulting ledger does not contain
only the preceding valid records — the malformed row itself is also
admitted (its missing amount left as `None`), because `load_expenses`
materialises every row before the conversion loop raises. -/
theorem C3_counterexample :
    (load_expenses (some fileC3)).1.expenses =
      [mkExpense ("2024-01-15".data) ("Food".data) (mkRat 25 2)
          ("Lunch".data),
        { date := some ("a".data), category := some ("b".data),
          amount := .anone, description := none, extra := [] }] ∧
    (load_expenses (some fileC3)).2 = some PyErr.typeError := by
  constructor
  · with_unfolding_all decide
  · with_unfolding_all decide

/-- C3 (amended): for a stored file of valid record rows followed by one
malformed row (wrong field count or non-numeric amount), `load_expenses`
reports the error and the ledger contains the valid records, converted,
*and additionally* the malformed row as read, with its amount
unconverted. -/
theorem C3_partial_load (st : TrackerState) (h : Reachable st) (bad : Str)
    (hne : csvParseLine bad ≠ [])
    (err : PyErr)
    (herr : convertAmount (rowToExpense fieldnamesStd (csvParseLine bad))
      = .error err) :
    load_expenses (some (save_expenses st ++ [bad])) =
      (TrackerState.mk
        (st.expenses ++ [rowToExpense fieldnamesStd (csvParseLine bad)])
        st.monthly_budget, some err) := by
  have hb : isDec st.monthly_budget = true := reachable_budget st h
  have hrows : readRows ((save_expenses st ++ [bad]).drop 1) =
      (st.expenses ++ [rowToExpense fieldnamesStd (csvParseLine bad)],
        some err) := by
    have hdrop : (save_expenses st ++ [bad]).drop 1 =
        renderLine fieldnamesStd :: (st.expenses.map recordLine ++ [bad]) := by
      rfl
    rw [hdrop, readRows_save_gen [bad] st.expenses (by
      intro e he
      obtain ⟨d, c, a, ds, he2, _, _, _, hdec, _⟩ :=
        reachable_records st h e he
      exact ⟨d, c, a, ds, he2, hdec⟩)]
    simp only [List.map_cons, List.map_nil]
    rw [List.filter_cons_of_pos (by simpa using hne)]
    simp only [List.filter_nil, List.map_cons, List.map_nil]
    simp only [convertLoop, herr]
  have hhead : (save_expenses st ++ [bad]).head?.getD [] =
      budgetLabel ++ ',' :: ratToStr st.monthly_budget := rfl
  rw [load_expenses, hhead, budgetLine_pyStrip, budgetLine_split]
  simp only [pyFloat_ratToStr st.monthly_budget hb, hrows]

theorem C3_witness :
    load_expenses (some (save_expenses (addExpense initSt
        ("2024-01-15".data) ("Food".data) (mkRat 25 2) ("Lunch".data))
        ++ ["a,b".data])) =
      (TrackerState.mk
        ((addExpense initSt ("2024-01-15".data) ("Food".data)
          (mkRat 25 2) ("Lunch".data)).expenses ++
          [rowToExpense fieldnamesStd (csvParseLine ("a,b".data))])
        ((addExpense initSt ("2024-01-15".data) ("Food".data)
          (mkRat 25 2) ("Lunch".data)).monthly_budget),
        some PyErr.typeError) :=
  C3_partial_load _
    (Reachable.add _ _ _ _ _ Reachable.init (by decide) (by decide)
      (by decide) (by decide) (by decide) (by decide) (by decide))
    ("a,b".data) (by decide) PyErr.typeError (by rfl)

/-- C4: `set_budget` replaces the budget with any value strictly greater
than zero and rejects zero and every negative value, leaving the budget
unchanged on rejection (the value arrives as the string the user typed;
`ratToStr v` is its printed form). -/
theorem C4_set_budget (st : TrackerState) (v : ℚ) (hv : isDec v = true) :
    (0 < v → set_budget st [ratToStr v] =
      { st with monthly_budget := v }) ∧
    (v ≤ 0 → set_budget st [ratToStr v] = st) := by
  constructor
  · intro hpos
    rw [set_budget]
    simp only [pyFloat_ratToStr v hv]
    rw [if_neg (not_le.mpr hpos)]
  · intro hneg
    rw [set_budget]
    simp only [pyFloat_ratToStr v hv]
    rw [if_pos hneg]
    rfl

theorem C4_witness :
    set_budget initSt [ratToStr (mkRat 50 1)] =
      { initSt with monthly_budget := mkRat 50 1 } ∧
    set_budget initSt [ratToStr (-(mkRat 50 1))] = initSt ∧
    set_budget initSt [ratToStr 0] = initSt :=
  ⟨(C4_set_budget initSt (mkRat 50 1) (by decide)).1 (by decide),
    (C4_set_budget initSt (-(mkRat 50 1)) (by decide)).2 (by decide),
    (C4_set_budget initSt 0 (by decide)).2 (by decide)⟩

/-- C5: with `monthly_budget == 0`, `track_budget` reports the
distinguished unset state whatever the total; with a positive budget it
reports `remaining = budget - total`, the over-budget flag
`total > budget`, and, when over budget, the displayed amount is the
absolute value of the (negative) remaining balance, `total - budget`. -/
theorem C5_track_budget (st : TrackerState) (inputs : List Str) :
    (st.monthly_budget = 0 →
      (track_budget st inputs).2 = TrackResult.unset) ∧
    (∀ t, 0 < st.monthly_budget → totalSpentQ st.expenses = some t →
      (track_budget st inputs).2 = TrackResult.view
        { budget := st.monthly_budget, total := t,
          remaining := st.monthly_budget - t,
          over := decide (st.monthly_budget < t),
          displayed :=
            if st.monthly_budget < t then t - st.monthly_budget
            else st.monthly_budget - t }) := by
  constructor
  · intro h0
    unfold track_budget
    rw [if_pos h0]
    cases inputs with
    | nil => rfl
    | cons ans rest =>
      by_cases hy : pyLower ans = ['y']
      · simp [hy]
      · simp [hy]
  · intro t hpos htot
    unfold track_budget
    rw [if_neg (by exact ne_of_gt hpos), htot]
    have habs : |st.monthly_budget - t| = t - st.monthly_budget
        ∨ ¬(st.monthly_budget < t) := by
      by_cases hlt : st.monthly_budget < t
      · left
        rw [abs_of_neg (by linarith)]
        ring
      · right
        exact hlt
    by_cases hlt : st.monthly_budget < t
    · rcases habs with habs | habs
      · simp only [if_pos hlt, habs]
      · exact absurd hlt habs
    · simp only [if_neg hlt]

def stC5 : TrackerState :=
  { expenses :=
      [mkExpense ("2024-01-05".data) ("Food".data) (mkRat 25 2)
          ("Lunch".data),
        mkExpense ("2024-01-06".data) ("Food".data) (mkRat 29 4)
          ("Coffee".data),
        mkExpense ("2024-01-07".data) ("Rent".data) (mkRat 100 1)
          ("Room".data)],
    monthly_budget := mkRat 100 1 }

theorem C5_witness :
    (track_budget stC5 []).2 = TrackResult.view
      { budget := mkRat 100 1, total := mkRat 479 4,
        remaining := mkRat 100 1 - mkRat 479 4,
        over := decide (mkRat 100 1 < mkRat 479 4),
        displayed :=
          if mkRat 100 1 < mkRat 479 4 then mkRat 479 4 - mkRat 100 1
          else mkRat 100 1 - mkRat 479 4 } :=
  (C5_track_budget stC5 []).2 (mkRat 479 4) (by decide)
    (by with_unfolding_all decide)

/-- C6: loading from a path that does not exist yields the empty ledger —
budget 0 and no records — with no error: the first-run behaviour, not a
failure. -/
theorem C6_load_missing_file :
    load_expenses none = (initSt, none) ∧ initSt.expenses = [] ∧
      initSt.monthly_budget = 0 :=
  ⟨rfl, rfl, rfl⟩

/-- C7: the total spent is the sum of the `amount` field over all records
(0 for an empty ledger): on any ledger whose records carry the numeric
amounts `qs`, the sum expression of `track_budget` yields `qs.sum`. -/
theorem C7_totalSpent (es : List PExpense) (qs : List ℚ)
    (h : es.map PExpense.amount = qs.map AVal.anum) :
    totalSpentQ es = some qs.sum := by
  induction es generalizing qs with
  | nil =>
    cases qs with
    | nil => simp [totalSpentQ]
    | cons q qt => simp at h
  | cons e rest ih =>
    cases qs with
    | nil => simp at h
    | cons q qt =>
      simp only [List.map_cons, List.cons.injEq] at h
      rw [totalSpentQ, h.1, ih qt h.2]
      simp [add_comm]

theorem C7_witness :
    totalSpentQ [] = some ([] : List ℚ).sum ∧
    totalSpentQ stC5.expenses =
      some ([mkRat 25 2, mkRat 29 4, mkRat 100 1] : List ℚ).sum ∧
    ([mkRat 25 2, mkRat 29 4, mkRat 100 1] : List ℚ).sum = mkRat 479 4 :=
  ⟨C7_totalSpent [] [] rfl,
    C7_totalSpent stC5.expenses [mkRat 25 2, mkRat 29 4, mkRat 100 1] rfl,
    by with_unfolding_all decide⟩

/-- C8: feeding `add_expense` a valid tuple — a parseable date, a stripped
non-empty category, a positive numeric amount and a stripped non-empty
description — appends exactly that one record at the end of the sequence,
leaving every earlier record and their order untouched, as `listRecords`
then shows. -/
theorem C8_add_appends (st : TrackerState) (d c aStr ds : Str) (a : ℚ)
    (hd : pyValidDate d = true)
    (hc : pyStrip c = c) (hc2 : c ≠ [])
    (ha : pyFloat aStr = some a) (hapos : 0 < a)
    (hds : pyStrip ds = ds) (hds2 : ds ≠ []) :
    add_expense st [d, c, aStr, ds] =
      { st with expenses := st.expenses ++ [mkExpense d c a ds] } ∧
    listRecords (add_expense st [d, c, aStr, ds]) =
      listRecords st ++ [mkExpense d c a ds] := by
  have hmain : add_expense st [d, c, aStr, ds] =
      { st with expenses := st.expenses ++ [mkExpense d c a ds] } := by
    simp only [add_expense, get_valid_date, get_non_empty_input,
      get_positive_float, hd, hc, hds, ha, hc2, hds2, hapos, ne_eq,
      not_false_iff, if_true, ite_true]
    rfl
  exact ⟨hmain, by rw [hmain]; rfl⟩

theorem C8_witness :
    add_expense initSt
        [("2024-01-15".data), ("Food".data), ("12.5".data), ("Lunch".data)] =
      { initSt with expenses := initSt.expenses ++
          [mkExpense ("2024-01-15".data) ("Food".data) (mkRat 25 2)
            ("Lunch".data)] } ∧
    listRecords (add_expense initSt
        [("2024-01-15".data), ("Food".data), ("12.5".data), ("Lunch".data)]) =
      listRecords initSt ++
        [mkExpense ("2024-01-15".data) ("Food".data) (mkRat 25 2)
          ("Lunch".data)] :=
  C8_add_appends initSt _ _ _ _ (mkRat 25 2) (by decide) (by decide)
    (by decide) (by decide) (by decide) (by decide) (by decide)

/-- C9 is falsified by the code: `track_budget` is not a pure query.  With
no budget set it offers to set one, and an interactive session answering
"y" and then "50" mutates `monthly_budget`. -/
theorem C9_counterexample :
    (track_budget { expenses := [], monthly_budget := 0 }
        [("y".data), ("50".data)]).1 ≠
      { expenses := [], monthly_budget := 0 } := by
  with_unfolding_all decide

/-- C9 (amended): `view_expenses` and the sum underlying `totalSpent` are
pure — no call changes the record sequence, and `track_budget` leaves the
whole state unchanged whenever a budget is set (`monthly_budget ≠ 0`);
only the budget-unset branch of `track_budget` may mutate
`monthly_budget`, by offering `set_budget`, and even then the record
sequence is preserved. -/
theorem C9_queries_pure (st : TrackerState) (inputs : List Str) :
    view_expenses st = st ∧
    (st.monthly_budget ≠ 0 → (track_budget st inputs).1 = st) ∧
    (track_budget st inputs).1.expenses = st.expenses := by
  refine ⟨rfl, ?_, ?_⟩
  · intro h0
    unfold track_budget
    rw [if_neg h0]
    cases totalSpentQ st.expenses with
    | none => rfl
    | some t => rfl
  · unfold track_budget
    by_cases h0 : st.monthly_budget = 0
    · rw [if_pos h0]
      cases inputs with
      | nil => rfl
      | cons ans rest =>
        by_cases hy : pyLower ans = ['y']
        · simp only [hy, if_pos rfl]
          exact set_budget_expenses st rest
        · simp only [if_neg hy]
    · rw [if_neg h0]
      cases totalSpentQ st.expenses with
      | none => rfl
      | some t => rfl

theorem C9_witness :
    (track_budget { expenses := [], monthly_budget := mkRat 100 1 }
        [("y".data), ("50".data)]).1 =
      { expenses := [], monthly_budget := mkRat 100 1 } :=
  (C9_queries_pure { expenses := [], monthly_budget := mkRat 100 1 }
    [("y".data), ("50".data)]).2.1 (by decide)

/-- C10: if the backing file exists and the budget token on its first line
is present but not numeric, `load_expenses` reports the conversion error
(caught, not propagated) and the ledger stays in its initial state:
budget 0 and no records, whatever the rest of the file holds. -/
theorem C10_bad_budget_token (tok : Str) (rest : List Str)
    (hns : tok.all (fun c => !isSpaceC c) = true)
    (hnc : ∀ x ∈ tok, x ≠ ',')
    (hpf : pyFloat tok = none) :
    load_expenses (some ((budgetLabel ++ ',' :: tok) :: rest)) =
      (initSt, some PyErr.valueError) := by
  have hstrip : pyStrip (budgetLabel ++ ',' :: tok) =
      budgetLabel ++ ',' :: tok := by
    apply pyStrip_id
    · intro x hx
      have hh : (budgetLabel ++ ',' :: tok).head? = some 'M' := rfl
      rw [hh] at hx
      rcases Option.some.inj hx with rfl
      decide
    · intro x hx
      rw [List.getLast?_append_of_ne_nil _ (by simp)] at hx
      cases htok : tok with
      | nil =>
        rw [htok] at hx
        rcases Option.some.inj hx with rfl
        decide
      | cons t ts =>
        rw [htok] at hx
        have h2 : (',' :: t :: ts) = [','] ++ t :: ts := rfl
        rw [h2, List.getLast?_append_of_ne_nil _ (by simp)] at hx
        have hmem : x ∈ t :: ts := List.mem_of_getLast?_eq_some hx
        simp only [List.all_eq_true, Bool.not_eq_eq_eq_not, Bool.not_true]
          at hns
        exact hns x (htok ▸ hmem)
  have hsplit : splitCh ',' (budgetLabel ++ ',' :: tok) =
      [budgetLabel, tok] := by
    rw [splitCh_append ',' budgetLabel _ (by decide),
      splitCh_of_not_mem ',' tok hnc]
  have hhead : (((budgetLabel ++ ',' :: tok) :: rest).head?.getD []) =
      budgetLabel ++ ',' :: tok := rfl
  rw [load_expenses, hhead, hstrip, hsplit]
  simp only [hpf]

theorem C10_witness :
    load_expenses (some ((budgetLabel ++ ',' :: ("abc".data)) ::
        [("x,y".data)])) = (initSt, some PyErr.valueError) :=
  C10_bad_budget_token ("abc".data) [("x,y".data)] (by decide) (by decide)
    (by decide)
